import Mathlib

/-!
A shallow embedding of the VectorSpaceModel library (src/VSM.ts) and proofs
about it.  JavaScript `Map<string, v>` objects are modelled as
insertion-ordered association lists with unique keys, `Set<string>` as an
insertion-ordered duplicate-free list, and JS numbers as elements of a linear
ordered field `K` (`ℝ` for the shipped `tfidf` / `cosineSimilarity`
instances, `ℚ` for executable test instances).  The IEEE-754 corner cases
around division by zero are modelled separately by the `JsNumber` type.
-/

set_option maxHeartbeats 1000000

namespace VSM

/-- Metadata values stored in a document's meta map (a JS `Map<string, any>` in
the source; the library never inspects the values, so a small value type
suffices). -/
inductive MetaValue
  | str (s : String)
  | num (q : ℚ)
  deriving DecidableEq

/-- A JavaScript metadata map, as an insertion-ordered association list. -/
abbrev MetaMap := List (String × MetaValue)

/-- The lodash `cloneDeep` of a metadata map: a structural deep copy that
rebuilds every node. -/
def cloneDeepMeta : MetaMap → MetaMap
  | [] => []
  | e :: rest => (e.1, e.2) :: cloneDeepMeta rest

/-- The `RawDocument` interface (src/VSM.ts lines 68-71): text content plus
optional metadata. -/
structure RawDocument where
  content : String
  meta : Option MetaMap
  deriving DecidableEq

/-- JavaScript `Map.get`: value of the (unique) binding of `key`, if any. -/
def vmapLookup {K : Type} : List (String × K) → String → Option K
  | [], _ => none
  | e :: rest, key => if e.1 = key then some e.2 else vmapLookup rest key

/-- JavaScript `Map.set`: replace the value in place if the key is already
bound, otherwise append a new binding at the end (JS Maps preserve insertion
order). -/
def vmapSet {K : Type} : List (String × K) → String → K → List (String × K)
  | [], key, x => [(key, x)]
  | e :: rest, key, x =>
    if e.1 = key then (key, x) :: rest else e :: vmapSet rest key x

/-- The key list of a JS map, in insertion order. -/
def vmKeys {K : Type} (v : List (String × K)) : List String := v.map Prod.fst

/-- The `VectorizedDocument` class (src/VSM.ts lines 12-58): term vector,
content and metadata. -/
structure VectorizedDocument (K : Type) where
  vector : List (String × K)
  content : String
  meta : MetaMap
  deriving DecidableEq

/-- The `VectorizedDocument` constructor (src/VSM.ts lines 19-27):
the vector is copied, and the metadata is `meta ? cloneDeep(meta) : new Map()`. -/
def mkVectorizedDocument {K : Type} (vector : List (String × K)) (content : String)
    (meta : Option MetaMap) : VectorizedDocument K :=
  ⟨vector, content, match meta with | some m => cloneDeepMeta m | none => []⟩

/-- A character matched by the regexp class `\w`: ASCII letters, digits and
underscore. -/
def isWordChar (c : Char) : Bool := c.isAlpha || c.isDigit || c = '_'

/-- Helper for `tokenize`: scans the character list, accumulating the current
run of word characters (in reverse). -/
def tokenizeAux : List Char → List Char → List String
  | [], cur => if cur.isEmpty then [] else [String.mk cur.reverse]
  | c :: cs, cur =>
    if isWordChar c then tokenizeAux cs (c :: cur)
    else if cur.isEmpty then tokenizeAux cs []
    else String.mk cur.reverse :: tokenizeAux cs []

/-- The tokenizer `content.match(/\w+/g)` (src/VSM.ts line 152): the maximal
runs of word characters, left to right (`null`, i.e. no token, is rendered as
the empty list). -/
def tokenize (s : String) : List String := tokenizeAux s.toList []

/-- JavaScript `Set<string>.add` on an insertion-ordered duplicate-free list
(src/VSM.ts line 158). -/
def addDim (dims : List String) (word : String) : List String :=
  if word ∈ dims then dims else dims ++ [word]

/-- One iteration of the `rawWords.forEach` loop of `query`
(src/VSM.ts lines 154-161): map the token through the configured word-mapping
schema, add it to the shared dimension set, and bump its count
(`vector.get(word) || 0` then `vector.set(word, 1 + wordCount)`). -/
def processToken {K : Type} [LinearOrderedField K] (wm : Option (String → String))
    (acc : List String × List (String × K)) (rawWord : String) :
    List String × List (String × K) :=
  let word := match wm with | some f => f rawWord | none => rawWord
  (addDim acc.1 word, vmapSet acc.2 word (1 + (vmapLookup acc.2 word).getD 0))

/-- Vectorization of a single raw document inside `query`
(src/VSM.ts lines 150-163), threading the shared dimension set. -/
def vectorizeDoc {K : Type} [LinearOrderedField K] (wm : Option (String → String))
    (dims : List String) (document : RawDocument) :
    List String × VectorizedDocument K :=
  let st := (tokenize document.content).foldl (processToken wm) (dims, [])
  (st.1, mkVectorizedDocument st.2 document.content document.meta)

/-- One step of the `collection.map(...)` pass of `query`, as a fold step
threading the shared dimension set. -/
def vectorizeStep {K : Type} [LinearOrderedField K] (wm : Option (String → String))
    (acc : List String × List (VectorizedDocument K)) (document : RawDocument) :
    List String × List (VectorizedDocument K) :=
  ((vectorizeDoc (K := K) wm acc.1 document).1,
    acc.2 ++ [(vectorizeDoc (K := K) wm acc.1 document).2])

/-- The whole vectorization pass of `query` (src/VSM.ts lines 146-163): maps
every document of the batch to a term-frequency vector while growing the
shared dimension set. -/
def vectorizeBatch {K : Type} [LinearOrderedField K] (wm : Option (String → String))
    (docs : List RawDocument) : List String × List (VectorizedDocument K) :=
  docs.foldl (vectorizeStep wm) ([], [])

/-- A scored document, transient inside `query` (src/VSM.ts lines 170-180). -/
structure ScoredDocument (K : Type) where
  vd : VectorizedDocument K
  score : K

/-- Insertion into an ascending-sorted list: after all strictly smaller
scores, before equal or larger ones.  Together with `sortScored` this is the
stable ascending order that `Array.prototype.sort` produces with the
comparator at src/VSM.ts lines 181-183. -/
def insertScored {K : Type} [LinearOrderedField K] (x : ScoredDocument K) :
    List (ScoredDocument K) → List (ScoredDocument K)
  | [] => [x]
  | y :: ys => if y.score < x.score then y :: insertScored x ys else x :: y :: ys

/-- The stable ascending sort of the scored vectors (src/VSM.ts lines 181-183). -/
def sortScored {K : Type} [LinearOrderedField K] :
    List (ScoredDocument K) → List (ScoredDocument K)
  | [] => []
  | x :: xs => insertScored x (sortScored xs)

/-- The method `VectorSpaceModel.query` (src/VSM.ts lines 131-188),
parameterized by the similarity, weighing and word-mapping schemas the
`VectorSpaceModel` instance was constructed with.  The argument `k` is a
rational, modelling an arbitrary (possibly non-integral) JS number; a thrown
`Error` is rendered as `Except.error` with the thrown message. -/
def query (K : Type) [LinearOrderedField K]
    (similaritySchema : VectorizedDocument K → VectorizedDocument K → K)
    (weighingSchema :
      Option (List (VectorizedDocument K) → List String → List (VectorizedDocument K)))
    (wordMappingSchema : Option (String → String))
    (queryText : String) (collection : List RawDocument) (k : ℚ) :
    Except String (List RawDocument) :=
  if k > (collection.length : ℚ) then
    Except.error "Parameter k cannot be greater than collection size."
  else if k ≤ 0 ∨ k ≠ ((Int.floor k : ℤ) : ℚ) then
    Except.error "Parameter k must be a positive integer."
  else if queryText = "" then
    Except.error "Empty query not allowed."
  else if collection.length = 0 then
    Except.ok []
  else
    let vb := vectorizeBatch (K := K) wordMappingSchema (collection ++ [⟨queryText, none⟩])
    let vectors := match weighingSchema with
      | some w => w vb.2 vb.1
      | none => vb.2
    let queryVector := vectors.getLast?
    let docVectors := vectors.dropLast
    let scored := docVectors.map (fun dv =>
      (⟨dv, match queryVector with
        | some qv => similaritySchema qv dv
        | none => 0⟩ : ScoredDocument K))
    let cream := (sortScored scored).take (Int.floor k).toNat
    Except.ok (cream.map (fun sv => (⟨sv.vd.content, some sv.vd.meta⟩ : RawDocument)))

/-- The word mapping `WordMappings.caseInsensitive` (src/VSM.ts line 192):
`word.toLowerCase()`, modelled as lowering every character (which agrees with
`toLowerCase` on the ASCII inputs used here). -/
def caseInsensitive (word : String) : String := String.mk (word.toList.map Char.toLower)

/-- Membership in the character class of `WordMappings.noPunctuation`
(src/VSM.ts line 194), which is exactly ASCII 33-47, 58-64, 91-96 and
123-126 (including underscore, code 95). -/
def isPunctChar (c : Char) : Bool :=
  (decide (33 ≤ c.toNat) && decide (c.toNat ≤ 47)) ||
  (decide (58 ≤ c.toNat) && decide (c.toNat ≤ 64)) ||
  (decide (91 ≤ c.toNat) && decide (c.toNat ≤ 96)) ||
  (decide (123 ≤ c.toNat) && decide (c.toNat ≤ 126))

/-- The word mapping `WordMappings.noPunctuation` (src/VSM.ts lines 193-195):
every character of the punctuation class is replaced by the empty string,
i.e. deleted. -/
def noPunctuation (word : String) : String :=
  String.mk (word.toList.filter (fun c => !(isPunctChar c)))

/-- The `documentFrequency` accumulation inside `tfidf`
(src/VSM.ts lines 205-208): the number of documents of the (original,
unmodified) batch whose vector has `dimension` among its keys. -/
def documentFrequency (vectorSpace : List (VectorizedDocument ℝ)) (dimension : String) : ℕ :=
  vectorSpace.foldl
    (fun f doc => f + if (vmapLookup doc.vector dimension).isSome then 1 else 0) 0

/-- One iteration of the `dictionary.forEach` loop of `tfidf`
(src/VSM.ts lines 203-218): the document frequency is read from the original
batch, `idf = Math.log(normalized.length / df)`, and every vector of the
evolving output gets its entry at `dimension` overwritten with `idf * tf`
where `tf = vector.get(dimension) || 0`. -/
noncomputable def tfidfStep (vectorSpace : List (VectorizedDocument ℝ))
    (normalized : List (VectorizedDocument ℝ)) (dimension : String) :
    List (VectorizedDocument ℝ) :=
  let df := documentFrequency vectorSpace dimension
  let idf := Real.log ((normalized.length : ℝ) / (df : ℝ))
  normalized.map (fun doc =>
    ⟨vmapSet doc.vector dimension (idf * ((vmapLookup doc.vector dimension).getD 0)),
      doc.content, doc.meta⟩)

/-- The weighing schema `WeighingSchemas.tfidf` (src/VSM.ts lines 200-220):
a deep copy of the batch is rewritten dimension by dimension. -/
noncomputable def tfidf (vectorSpace : List (VectorizedDocument ℝ))
    (dimensions : List String) : List (VectorizedDocument ℝ) :=
  dimensions.foldl (tfidfStep vectorSpace) vectorSpace

/-- The function `VectorOperations.euclideanLength` (src/VSM.ts lines 239-245):
square root of the sum of the squared vector values. -/
noncomputable def euclideanLength (v : VectorizedDocument ℝ) : ℝ :=
  Real.sqrt (v.vector.foldl (fun len e => len + e.2 ^ 2) 0)

/-- The function `VectorOperations.dotProduct` (src/VSM.ts lines 252-263).
A `b`-side value of `0` (or an absent key) is falsy in `if (bNthDimension)`
and the term is skipped. -/
def dotProduct {K : Type} [LinearOrderedField K] (a b : VectorizedDocument K) : K :=
  a.vector.foldl (fun dp e =>
    match vmapLookup b.vector e.1 with
    | some w => if w = 0 then dp else dp + e.2 * w
    | none => dp) 0

/-- The schema `SimilaritySchemas.cosineSimilarity` (src/VSM.ts lines 224-230). -/
noncomputable def cosineSimilarity (a b : VectorizedDocument ℝ) : ℝ :=
  dotProduct a b / (euclideanLength a * euclideanLength b)

/-- IEEE-754 double values, as far as the division-by-zero corner cases of the
source need: a finite real, the two infinities, or NaN. -/
inductive JsNumber
  | fin (x : ℝ)
  | posInf
  | negInf
  | nan

/-- JavaScript division on `JsNumber` (IEEE-754 semantics; the signs of zero
are not tracked, which none of the statements below depend on). -/
noncomputable def jsDiv : JsNumber → JsNumber → JsNumber
  | .nan, _ => .nan
  | .fin _, .nan => .nan
  | .fin x, .fin y =>
    if y = 0 then (if x = 0 then .nan else if 0 < x then .posInf else .negInf)
    else .fin (x / y)
  | .fin _, .posInf => .fin 0
  | .fin _, .negInf => .fin 0
  | .posInf, .nan => .nan
  | .posInf, .fin y => if 0 ≤ y then .posInf else .negInf
  | .posInf, .posInf => .nan
  | .posInf, .negInf => .nan
  | .negInf, .nan => .nan
  | .negInf, .fin y => if 0 ≤ y then .negInf else .posInf
  | .negInf, .posInf => .nan
  | .negInf, .negInf => .nan

/-- JavaScript multiplication on `JsNumber`. -/
noncomputable def jsMul : JsNumber → JsNumber → JsNumber
  | .nan, _ => .nan
  | .fin _, .nan => .nan
  | .fin x, .fin y => .fin (x * y)
  | .fin x, .posInf => if x = 0 then .nan else if 0 < x then .posInf else .negInf
  | .fin x, .negInf => if x = 0 then .nan else if 0 < x then .negInf else .posInf
  | .posInf, .nan => .nan
  | .posInf, .fin y => if y = 0 then .nan else if 0 < y then .posInf else .negInf
  | .posInf, .posInf => .posInf
  | .posInf, .negInf => .negInf
  | .negInf, .nan => .nan
  | .negInf, .fin y => if y = 0 then .nan else if 0 < y then .negInf else .posInf
  | .negInf, .posInf => .negInf
  | .negInf, .negInf => .posInf

/-- JavaScript `Math.log` on `JsNumber`. -/
noncomputable def jsLog : JsNumber → JsNumber
  | .nan => .nan
  | .posInf => .posInf
  | .negInf => .nan
  | .fin x => if x < 0 then .nan else if x = 0 then .negInf else .fin (Real.log x)

/-- JavaScript `Math.sqrt` on `JsNumber`. -/
noncomputable def jsSqrt : JsNumber → JsNumber
  | .nan => .nan
  | .posInf => .posInf
  | .negInf => .nan
  | .fin x => if x < 0 then .nan else .fin (Real.sqrt x)

/-- The loop of `euclideanLength` computed in IEEE semantics: the sum of
finite squares is finite, then `Math.sqrt` is applied. -/
noncomputable def euclideanLengthJs (v : VectorizedDocument ℝ) : JsNumber :=
  jsSqrt (.fin (v.vector.foldl (fun len e => len + e.2 ^ 2) 0))

/-- The schema `cosineSimilarity` computed in IEEE semantics: the dot-product
loop only ever adds finite reals, and the denominator is the JS product of
the two lengths. -/
noncomputable def cosineSimilarityJs (a b : VectorizedDocument ℝ) : JsNumber :=
  jsDiv (.fin (dotProduct a b)) (jsMul (euclideanLengthJs a) (euclideanLengthJs b))

/-- The `idf` expression of `tfidf` (src/VSM.ts line 209) in IEEE semantics:
`Math.log(batchSize / documentFrequency)`. -/
noncomputable def idfJs (batchSize df : ℕ) : JsNumber :=
  jsLog (jsDiv (.fin (batchSize : ℝ)) (.fin (df : ℝ)))

/-! Basic lemmas about the JS map model. -/

theorem vmapLookup_set_self {K : Type} (v : List (String × K)) (key : String) (x : K) :
    vmapLookup (vmapSet v key x) key = some x := by
  induction v with
  | nil => simp [vmapSet, vmapLookup]
  | cons e rest ih =>
    by_cases h : e.1 = key
    · simp [vmapSet, h, vmapLookup]
    · simp [vmapSet, h, vmapLookup, ih]

theorem vmapLookup_set_ne {K : Type} (v : List (String × K)) (key key' : String) (x : K)
    (h : key' ≠ key) :
    vmapLookup (vmapSet v key x) key' = vmapLookup v key' := by
  induction v with
  | nil => simp [vmapSet, vmapLookup, Ne.symm h]
  | cons e rest ih =>
    by_cases he : e.1 = key
    · subst he
      simp [vmapSet, vmapLookup, Ne.symm h]
    · simp only [vmapSet, if_neg he]
      by_cases he' : e.1 = key'
      · simp [vmapLookup, he']
      · simp [vmapLookup, he', ih]

theorem vmKeys_set_mem {K : Type} (v : List (String × K)) (key : String) (x : K) (s : String) :
    s ∈ vmKeys (vmapSet v key x) ↔ s ∈ vmKeys v ∨ s = key := by
  induction v with
  | nil => simp [vmapSet, vmKeys]
  | cons e rest ih =>
    by_cases h : e.1 = key
    · subst h
      simp only [vmapSet, if_pos rfl, eq_self_iff_true, if_true, vmKeys, List.map_cons,
        List.mem_cons] at ih ⊢
      tauto
    · simp only [vmapSet, if_neg h, vmKeys, List.map_cons, List.mem_cons] at ih ⊢
      rw [ih]
      tauto

theorem vmapLookup_of_nodup {K : Type} (v : List (String × K)) (e : String × K)
    (hnd : (vmKeys v).Nodup) (he : e ∈ v) :
    vmapLookup v e.1 = some e.2 := by
  induction v with
  | nil => simp at he
  | cons f rest ih =>
    simp only [vmKeys, List.map_cons, List.nodup_cons] at hnd
    rcases List.mem_cons.mp he with rfl | hm
    · simp [vmapLookup]
    · have hne : f.1 ≠ e.1 := by
        intro hk
        exact hnd.1 (hk ▸ List.mem_map_of_mem Prod.fst hm)
      simp [vmapLookup, hne, ih hnd.2 hm]

theorem vmapLookup_mem_values {K : Type} (v : List (String × K)) (key : String) (x : K)
    (h : vmapLookup v key = some x) : x ∈ v.map Prod.snd := by
  induction v with
  | nil => simp [vmapLookup] at h
  | cons e rest ih =>
    by_cases he : e.1 = key
    · simp only [vmapLookup, if_pos he, Option.some.injEq] at h
      simp [h.symm]
    · simp only [vmapLookup, if_neg he] at h
      simp [ih h]

/-! Reformulations of the accumulation loops as list sums. -/

theorem sumSq_foldl_eq (v : List (String × ℝ)) (a : ℝ) :
    v.foldl (fun len e => len + e.2 ^ 2) a = a + (v.map (fun e => e.2 ^ 2)).sum := by
  induction v generalizing a with
  | nil => simp
  | cons e rest ih => simp [ih, add_assoc]

theorem dotProduct_foldl_eq {K : Type} [LinearOrderedField K] (b : VectorizedDocument K)
    (l : List (String × K)) (a : K) :
    (l.foldl (fun dp e =>
      match vmapLookup b.vector e.1 with
      | some w => if w = 0 then dp else dp + e.2 * w
      | none => dp) a)
      = a + (l.map (fun e =>
          match vmapLookup b.vector e.1 with
          | some w => if w = 0 then 0 else e.2 * w
          | none => 0)).sum := by
  induction l generalizing a with
  | nil => simp
  | cons e rest ih =>
    rcases hw : vmapLookup b.vector e.1 with _ | w
    · simp [List.foldl_cons, hw, ih]
    · by_cases h0 : w = 0
      · simp [List.foldl_cons, hw, h0, ih]
      · simp [List.foldl_cons, hw, h0, ih, add_assoc]

theorem dotProduct_eq_sum {K : Type} [LinearOrderedField K] (a b : VectorizedDocument K) :
    dotProduct a b = (a.vector.map (fun e =>
      match vmapLookup b.vector e.1 with
      | some w => if w = 0 then 0 else e.2 * w
      | none => 0)).sum := by
  rw [dotProduct, dotProduct_foldl_eq, zero_add]

/-! Length bookkeeping for the pipeline of `query`. -/

theorem insertScored_length {K : Type} [LinearOrderedField K] (x : ScoredDocument K)
    (l : List (ScoredDocument K)) : (insertScored x l).length = l.length + 1 := by
  induction l with
  | nil => simp [insertScored]
  | cons y ys ih =>
    by_cases h : y.score < x.score
    · simp [insertScored, h, ih]
    · simp [insertScored, h]

theorem sortScored_length {K : Type} [LinearOrderedField K] (l : List (ScoredDocument K)) :
    (sortScored l).length = l.length := by
  induction l with
  | nil => rfl
  | cons x xs ih => simp [sortScored, insertScored_length, ih]

theorem vectorizeBatch_foldl_length {K : Type} [LinearOrderedField K]
    (wm : Option (String → String)) (docs : List RawDocument) :
    ∀ acc : List String × List (VectorizedDocument K),
      ((docs.foldl (vectorizeStep wm) acc).2).length = acc.2.length + docs.length := by
  induction docs with
  | nil => intro acc; simp
  | cons d ds ih =>
    intro acc
    rw [List.foldl_cons, ih]
    simp [vectorizeStep]
    omega

theorem vectorizeBatch_length {K : Type} [LinearOrderedField K]
    (wm : Option (String → String)) (docs : List RawDocument) :
    ((vectorizeBatch (K := K) wm docs).2).length = docs.length := by
  rw [vectorizeBatch, vectorizeBatch_foldl_length]
  simp

/-! Structure of `tfidf`.  The fold over the dictionary rewrites every
document independently, so `tfidf` is a `map`; `tfidfDocStep` is the
per-document view of one `tfidfStep` iteration (a proof-side reformulation,
not a separate source translation). -/

noncomputable def tfidfDocStep (vectorSpace : List (VectorizedDocument ℝ)) (n : ℕ)
    (doc : VectorizedDocument ℝ) (dimension : String) : VectorizedDocument ℝ :=
  ⟨vmapSet doc.vector dimension
      (Real.log ((n : ℝ) / (documentFrequency vectorSpace dimension : ℝ)) *
        ((vmapLookup doc.vector dimension).getD 0)),
    doc.content, doc.meta⟩

theorem tfidfStep_eq_map (vectorSpace normalized : List (VectorizedDocument ℝ))
    (dimension : String) :
    tfidfStep vectorSpace normalized dimension =
      normalized.map (fun doc => tfidfDocStep vectorSpace normalized.length doc dimension) := by
  rfl

theorem foldl_tfidfStep_eq_map (vectorSpace : List (VectorizedDocument ℝ)) :
    ∀ (ds : List String) (cur : List (VectorizedDocument ℝ)),
      ds.foldl (tfidfStep vectorSpace) cur =
        cur.map (fun doc => ds.foldl (tfidfDocStep vectorSpace cur.length) doc) := by
  intro ds
  induction ds with
  | nil => intro cur; simp
  | cons d ds ih =>
    intro cur
    rw [List.foldl_cons, ih, tfidfStep_eq_map, List.map_map]
    simp [List.foldl_cons, Function.comp]

theorem tfidf_eq_map (vectorSpace : List (VectorizedDocument ℝ)) (dimensions : List String) :
    tfidf vectorSpace dimensions =
      vectorSpace.map
        (fun doc => dimensions.foldl (tfidfDocStep vectorSpace vectorSpace.length) doc) := by
  rw [tfidf, foldl_tfidfStep_eq_map]

theorem tfidf_length (vectorSpace : List (VectorizedDocument ℝ)) (dimensions : List String) :
    (tfidf vectorSpace dimensions).length = vectorSpace.length := by
  rw [tfidf_eq_map, List.length_map]

theorem foldl_docStep_lookup_not_mem (vectorSpace : List (VectorizedDocument ℝ)) (n : ℕ)
    (ds : List String) (d : String) (hd : d ∉ ds) (doc : VectorizedDocument ℝ) :
    vmapLookup (ds.foldl (tfidfDocStep vectorSpace n) doc).vector d =
      vmapLookup doc.vector d := by
  induction ds generalizing doc with
  | nil => rfl
  | cons d0 ds ih =>
    have hne : d ≠ d0 := fun h => hd (h ▸ List.mem_cons_self d0 ds)
    have hds : d ∉ ds := fun h => hd (List.mem_cons_of_mem d0 h)
    rw [List.foldl_cons, ih hds]
    exact vmapLookup_set_ne _ _ _ _ hne

theorem foldl_docStep_keys (vectorSpace : List (VectorizedDocument ℝ)) (n : ℕ)
    (ds : List String) (doc : VectorizedDocument ℝ) (s : String) :
    s ∈ vmKeys (ds.foldl (tfidfDocStep vectorSpace n) doc).vector ↔
      s ∈ vmKeys doc.vector ∨ s ∈ ds := by
  induction ds generalizing doc with
  | nil => simp
  | cons d0 ds ih =>
    rw [List.foldl_cons, ih, tfidfDocStep, vmKeys_set_mem]
    simp only [List.mem_cons]
    tauto

theorem foldl_docStep_lookup_mem (vectorSpace : List (VectorizedDocument ℝ)) (n : ℕ)
    (ds : List String) (hnd : ds.Nodup) (d : String) (hd : d ∈ ds)
    (doc : VectorizedDocument ℝ) :
    vmapLookup (ds.foldl (tfidfDocStep vectorSpace n) doc).vector d =
      some (Real.log ((n : ℝ) / (documentFrequency vectorSpace d : ℝ)) *
        ((vmapLookup doc.vector d).getD 0)) := by
  obtain ⟨l1, l2, rfl⟩ := List.append_of_mem hd
  rw [List.nodup_append] at hnd
  have hd1 : d ∉ l1 := fun h => (hnd.2.2 h (List.mem_cons_self d l2)).elim
  have hd2 : d ∉ l2 := (List.nodup_cons.mp hnd.2.1).1
  rw [List.foldl_append, List.foldl_cons, foldl_docStep_lookup_not_mem _ _ _ _ hd2,
    tfidfDocStep, foldl_docStep_lookup_not_mem _ _ _ _ hd1]
  exact vmapLookup_set_self _ _ _

theorem forall₂_map_self {α β : Type} {P : β → α → Prop} (F : α → β) (l : List α)
    (h : ∀ x, P (F x) x) : List.Forall₂ P (l.map F) l := by
  induction l with
  | nil => simp
  | cons x xs ih => exact List.Forall₂.cons (h x) ih

theorem sum_sq_eq_zero {l : List (String × ℝ)}
    (h : (l.map (fun e => e.2 ^ 2)).sum = 0) : ∀ e ∈ l, e.2 = 0 := by
  induction l with
  | nil => simp
  | cons f l ih =>
    simp only [List.map_cons, List.sum_cons] at h
    have hrest : 0 ≤ (l.map (fun e => e.2 ^ 2)).sum := by
      apply List.sum_nonneg
      intro x hx
      obtain ⟨e, _, rfl⟩ := List.mem_map.mp hx
      exact sq_nonneg _
    have hf : f.2 ^ 2 = 0 := by nlinarith [sq_nonneg f.2]
    intro e he
    rcases List.mem_cons.mp he with rfl | hm
    · exact pow_eq_zero_iff two_ne_zero |>.mp hf
    · exact ih (by linarith) e hm

/-- Claim C3, corrected (counterexample): on the batch with vectors keyed
`["a"]` and `["b"]` and the dictionary `["a", "b"]`, `tfidf` does not
preserve the key sets of the vectors — it inserts every dictionary dimension
into every vector. -/
theorem tfidf_changes_key_sets_cex :
    (tfidf [⟨[("a", (1 : ℝ))], "a", []⟩, ⟨[("b", 1)], "b", []⟩] ["a", "b"]).map
        (fun doc => vmKeys doc.vector) ≠
      [(⟨[("a", (1 : ℝ))], "a", []⟩ : VectorizedDocument ℝ), ⟨[("b", 1)], "b", []⟩].map
        (fun doc => vmKeys doc.vector) := by
  intro h
  rw [tfidf_eq_map] at h
  simp only [List.map_map, List.map_cons, List.map_nil, Function.comp, List.cons.injEq] at h
  have hb : "b" ∈ vmKeys ((["a", "b"].foldl
      (tfidfDocStep [⟨[("a", (1 : ℝ))], "a", []⟩, ⟨[("b", 1)], "b", []⟩]
        (List.length [(⟨[("a", (1 : ℝ))], "a", []⟩ : VectorizedDocument ℝ), ⟨[("b", 1)], "b", []⟩]))
      ⟨[("a", (1 : ℝ))], "a", []⟩).vector) := by
    rw [foldl_docStep_keys]
    exact Or.inr (by simp)
  rw [h.1] at hb
  exact absurd hb (by decide)

/-- Claim C3, amended: `tfidf` preserves the cardinality of the batch, but
each output vector's key set is the input key set extended with every
dictionary dimension (absent dimensions are inserted with weight
`idf * 0`): a term is a key of the output vector iff it is a key of the
corresponding input vector or a member of the dictionary. -/
theorem tfidf_cardinality_and_keys (batch : List (VectorizedDocument ℝ))
    (dims : List String) :
    (tfidf batch dims).length = batch.length ∧
    List.Forall₂ (fun outDoc inDoc => ∀ s : String,
        s ∈ vmKeys outDoc.vector ↔ s ∈ vmKeys inDoc.vector ∨ s ∈ dims)
      (tfidf batch dims) batch := by
  refine ⟨tfidf_length _ _, ?_⟩
  rw [tfidf_eq_map]
  exact forall₂_map_self _ _ (fun doc s => foldl_docStep_keys batch batch.length dims doc s)

/-- Claim C7: for a duplicate-free dictionary and a dimension `d` occurring
in at least one vector of the batch, `tfidf` rewrites every document's entry
at `d` to `ln(batchSize / df(d)) * tf(d, doc)`, where `df` is the key-set
membership count over the original, unmodified batch and `tf` is the raw
count of the input document (`0` when absent). -/
theorem tfidf_weight_formula (batch : List (VectorizedDocument ℝ)) (dims : List String)
    (hnd : dims.Nodup) (d : String) (hd : d ∈ dims)
    (_hdf : 0 < documentFrequency batch d) :
    List.Forall₂ (fun outDoc inDoc =>
        vmapLookup outDoc.vector d =
          some (Real.log ((batch.length : ℝ) / (documentFrequency batch d : ℝ)) *
            ((vmapLookup inDoc.vector d).getD 0)))
      (tfidf batch dims) batch := by
  rw [tfidf_eq_map]
  exact forall₂_map_self _ _
    (fun doc => foldl_docStep_lookup_mem batch batch.length dims hnd d hd doc)

/-- Witness for C7: the formula evaluated on a one-document batch. -/
theorem tfidf_weight_formula_witness :
    (["a"] : List String).Nodup ∧ "a" ∈ (["a"] : List String) ∧
      0 < documentFrequency [⟨[("a", (1 : ℝ))], "a", []⟩] "a" ∧
      List.Forall₂ (fun (outDoc inDoc : VectorizedDocument ℝ) =>
          vmapLookup outDoc.vector "a" =
            some (Real.log
                ((List.length [(⟨[("a", (1 : ℝ))], "a", []⟩ : VectorizedDocument ℝ)] : ℝ) /
                  (documentFrequency [⟨[("a", (1 : ℝ))], "a", []⟩] "a" : ℝ)) *
              ((vmapLookup inDoc.vector "a").getD 0)))
        (tfidf [⟨[("a", (1 : ℝ))], "a", []⟩] ["a"]) [⟨[("a", (1 : ℝ))], "a", []⟩] :=
  ⟨by decide, by decide, by decide,
    tfidf_weight_formula [⟨[("a", (1 : ℝ))], "a", []⟩] ["a"] (by decide) "a" (by decide)
      (by decide)⟩

/-- Claim C8: for a well-formed vector (unique keys, the JS `Map` invariant),
the dot product of a document with itself is the square of its Euclidean
length, in exact real arithmetic. -/
theorem dotProduct_self_eq_euclideanLength_sq (d : VectorizedDocument ℝ)
    (hnd : (vmKeys d.vector).Nodup) :
    dotProduct d d = euclideanLength d ^ 2 := by
  have hsum : d.vector.foldl (fun len e => len + e.2 ^ 2) 0 =
      (d.vector.map (fun e => e.2 ^ 2)).sum := by
    rw [sumSq_foldl_eq, zero_add]
  have hnn : 0 ≤ (d.vector.map (fun e => e.2 ^ 2)).sum := by
    apply List.sum_nonneg
    intro x hx
    obtain ⟨e, _, rfl⟩ := List.mem_map.mp hx
    exact sq_nonneg _
  rw [dotProduct_eq_sum, euclideanLength, hsum, Real.sq_sqrt hnn]
  congr 1
  apply List.map_congr_left
  intro e he
  rw [vmapLookup_of_nodup d.vector e hnd he]
  by_cases h0 : e.2 = 0
  · simp [h0]
  · simp [h0, pow_two]

/-- Witness for C8 at a concrete one-entry vector. -/
theorem dotProduct_self_eq_euclideanLength_sq_witness :
    (vmKeys ([("a", (2 : ℝ))])).Nodup ∧
      dotProduct (⟨[("a", (2 : ℝ))], "", []⟩ : VectorizedDocument ℝ)
          ⟨[("a", (2 : ℝ))], "", []⟩ =
        euclideanLength ⟨[("a", (2 : ℝ))], "", []⟩ ^ 2 :=
  ⟨by decide, dotProduct_self_eq_euclideanLength_sq ⟨[("a", (2 : ℝ))], "", []⟩ (by decide)⟩

/-- Claim C2, counterexample: on an empty collection the check
`k > collection.length` fires first, so `query("test", [], 1)` throws the
size error instead of returning the empty list. -/
theorem query_empty_collection_throws_cex :
    query ℝ cosineSimilarity (some tfidf) (some caseInsensitive) "test" [] 1 =
        Except.error "Parameter k cannot be greater than collection size." ∧
      query ℝ cosineSimilarity (some tfidf) (some caseInsensitive) "test" [] 1 ≠
        Except.ok [] := by
  have h : query ℝ cosineSimilarity (some tfidf) (some caseInsensitive) "test" [] 1 =
      Except.error "Parameter k cannot be greater than collection size." := by
    rw [query, if_pos (by norm_num)]
  exact ⟨h, by rw [h]; simp⟩

/-- Claim C2, amended: calling `query` with an empty collection never returns
the empty list; it always throws.  The validation of `k` precedes the
emptiness check, so any `k &gt; 0` hits the size error and any `k ≤ 0` hits the
positivity error. -/
theorem query_empty_collection_always_errors (K : Type) [LinearOrderedField K]
    (sim : VectorizedDocument K → VectorizedDocument K → K)
    (weigh : Option (List (VectorizedDocument K) → List String → List (VectorizedDocument K)))
    (wm : Option (String → String)) (queryText : String) (k : ℚ) :
    (0 < k → query K sim weigh wm queryText [] k =
        Except.error "Parameter k cannot be greater than collection size.") ∧
    (k ≤ 0 → query K sim weigh wm queryText [] k =
        Except.error "Parameter k must be a positive integer.") := by
  constructor
  · intro hk
    rw [query, if_pos (by simpa using hk)]
  · intro hk
    rw [query, if_neg (by simpa using not_lt.mpr hk), if_pos (Or.inl hk)]

/-- Witness for the amended C2 at the concrete input of Scenario A. -/
theorem query_empty_collection_always_errors_witness :
    (0 : ℚ) < 1 ∧
      query ℚ (fun _ _ => 0) none none "test" [] 1 =
        Except.error "Parameter k cannot be greater than collection size." :=
  ⟨by norm_num,
    (query_empty_collection_always_errors ℚ (fun _ _ => 0) none none "test" 1).1 (by norm_num)⟩

/-- Claim C5: for a non-empty collection, `query` throws exactly when
`k` exceeds the collection size, `k` is non-positive, `k` is not an integer,
or the query text is empty; the model is a pure function, so an error leaves
no other effect.  Scenarios B and C produce the empty-query and the
k-exceeds-collection-size errors respectively. -/
theorem query_usage_error_iff (K : Type) [LinearOrderedField K]
    (sim : VectorizedDocument K → VectorizedDocument K → K)
    (weigh : Option (List (VectorizedDocument K) → List String → List (VectorizedDocument K)))
    (wm : Option (String → String)) (queryText : String)
    (collection : List RawDocument) (k : ℚ) (hcol : collection ≠ []) :
    ((∃ e, query K sim weigh wm queryText collection k = Except.error e) ↔
        ((collection.length : ℚ) < k ∨ k ≤ 0 ∨ k ≠ ((Int.floor k : ℤ) : ℚ) ∨
          queryText = "")) ∧
    query ℝ cosineSimilarity (some tfidf) (some caseInsensitive) "" [⟨"a", none⟩] 1 =
      Except.error "Empty query not allowed." ∧
    query ℝ cosineSimilarity (some tfidf) (some caseInsensitive) "x" [⟨"a", none⟩] 2 =
      Except.error "Parameter k cannot be greater than collection size." := by
  refine ⟨?_, ?_, ?_⟩
  · rw [query]
    split_ifs with h1 h2 h3 h4
    · exact iff_of_true ⟨_, rfl⟩ (Or.inl h1)
    · refine iff_of_true ⟨_, rfl⟩ (Or.inr ?_)
      rcases h2 with h | h
      · exact Or.inl h
      · exact Or.inr (Or.inl h)
    · exact iff_of_true ⟨_, rfl⟩ (Or.inr (Or.inr (Or.inr h3)))
    · exact absurd (List.length_eq_zero.mp h4) hcol
    · rw [not_or] at h2
      refine iff_of_false (fun ⟨e, he⟩ => by simp at he) ?_
      rintro (h | h | h | h)
      · exact h1 h
      · exact h2.1 h
      · exact h2.2 h
      · exact h3 h
  · rw [query, if_neg (by norm_num), if_neg (by norm_num [Int.floor_one]), if_pos rfl]
  · rw [query, if_pos (by norm_num)]

/-- Witness for C5 on a concrete non-empty collection. -/
theorem query_usage_error_iff_witness :
    [(⟨"a", none⟩ : RawDocument)] ≠ [] ∧
      ((∃ e, query ℚ (fun _ _ => 0) none none "y" [⟨"a", none⟩] 1 = Except.error e) ↔
        (((List.length [(⟨"a", none⟩ : RawDocument)] : ℕ) : ℚ) < 1 ∨ (1 : ℚ) ≤ 0 ∨
          (1 : ℚ) ≠ ((Int.floor (1 : ℚ) : ℤ) : ℚ) ∨ ("y" : String) = "")) :=
  ⟨by simp,
    (query_usage_error_iff ℚ (fun _ _ => 0) none none "y" [⟨"a", none⟩] 1 (by simp)).1⟩

/-- Claim C6: for a non-empty collection, a non-empty query text, an integral
`1 ≤ k ≤ collection.length`, and a weighing schema that preserves the batch
cardinality (as `tfidf` does, and as the weighing contract requires),
`query` succeeds and returns exactly `k` documents. -/
theorem query_returns_k_results (K : Type) [LinearOrderedField K]
    (sim : VectorizedDocument K → VectorizedDocument K → K)
    (weigh : Option (List (VectorizedDocument K) → List String → List (VectorizedDocument K)))
    (wm : Option (String → String)) (queryText : String)
    (collection : List RawDocument) (n : ℕ)
    (hw : ∀ w ∈ weigh, ∀ (b : List (VectorizedDocument K)) (d : List String),
      (w b d).length = b.length)
    (hq : queryText ≠ "") (h1 : 1 ≤ n) (hn : n ≤ collection.length) :
    ∃ res, query K sim weigh wm queryText collection (n : ℚ) = Except.ok res ∧
      res.length = n := by
  have hc1 : ¬ ((n : ℚ) > (collection.length : ℚ)) := by
    rw [not_lt]
    exact_mod_cast hn
  have hc2 : ¬ ((n : ℚ) ≤ 0 ∨ (n : ℚ) ≠ ((Int.floor ((n : ℕ) : ℚ) : ℤ) : ℚ)) := by
    rw [not_or, not_le, not_ne_iff]
    constructor
    · exact_mod_cast Nat.lt_of_lt_of_le Nat.zero_lt_one h1
    · rw [Int.floor_natCast]
      norm_cast
  have hc4 : ¬ (collection.length = 0) := by omega
  have hfl : (Int.floor ((n : ℕ) : ℚ)).toNat = n := by
    rw [Int.floor_natCast, Int.toNat_natCast]
  rcases weigh with _ | w
  · rw [query, if_neg hc1, if_neg hc2, if_neg hq, if_neg hc4]
    refine ⟨_, rfl, ?_⟩
    simp only [List.length_map, List.length_take, sortScored_length, List.length_dropLast,
      vectorizeBatch_length, List.length_append, List.length_cons, List.length_nil, hfl]
    omega
  · rw [query, if_neg hc1, if_neg hc2, if_neg hq, if_neg hc4]
    refine ⟨_, rfl, ?_⟩
    simp only [List.length_map, List.length_take, sortScored_length, List.length_dropLast, hfl]
    rw [hw w (by simp), vectorizeBatch_length]
    simp only [List.length_append, List.length_cons, List.length_nil]
    omega

/-- Witness for C6 with the `tfidf` weighing schema on a two-document
collection and `k = 2`. -/
theorem query_returns_k_results_witness :
    ("q" : String) ≠ "" ∧ 1 ≤ 2 ∧
      2 ≤ (List.length [(⟨"a", none⟩ : RawDocument), ⟨"b", none⟩]) ∧
      ∃ res, query ℝ cosineSimilarity (some tfidf) (some caseInsensitive) "q"
          [⟨"a", none⟩, ⟨"b", none⟩] ((2 : ℕ) : ℚ) = Except.ok res ∧ res.length = 2 :=
  ⟨by simp, by norm_num, by norm_num,
    query_returns_k_results ℝ cosineSimilarity (some tfidf) (some caseInsensitive) "q"
      [⟨"a", none⟩, ⟨"b", none⟩] 2
      (by rintro w hw b d
          rw [Option.mem_some_iff] at hw
          rw [← hw]
          exact tfidf_length b d)
      (by simp) (by norm_num) (by norm_num)⟩

/-- Claim C9: absent metadata is normalized by the constructor to the empty
map (never `undefined`); present metadata is stored as a structural deep
copy (`cloneDeep`), which is value-preserving; and every document returned
by a successful `query` carries a present (non-`undefined`) metadata map. -/
theorem meta_default_and_deep_copy :
    (∀ (v : List (String × ℝ)) (c : String), (mkVectorizedDocument v c none).meta = []) ∧
    (∀ (v : List (String × ℝ)) (c : String) (m : MetaMap),
      (mkVectorizedDocument v c (some m)).meta = cloneDeepMeta m) ∧
    (∀ m : MetaMap, cloneDeepMeta m = m) ∧
    (∀ (K : Type) [LinearOrderedField K]
      (sim : VectorizedDocument K → VectorizedDocument K → K)
      (weigh : Option (List (VectorizedDocument K) → List String → List (VectorizedDocument K)))
      (wm : Option (String → String)) (queryText : String)
      (collection : List RawDocument) (k : ℚ) (res : List RawDocument),
      query K sim weigh wm queryText collection k = Except.ok res →
        ∀ r ∈ res, r.meta ≠ none) := by
  refine ⟨fun v c => rfl, fun v c m => rfl, ?_, ?_⟩
  · intro m
    induction m with
    | nil => rfl
    | cons e rest ih => simp [cloneDeepMeta, ih]
  · intro K _ sim weigh wm queryText collection k res h r hr
    rw [query] at h
    split_ifs at h
    · rw [Except.ok.injEq] at h
      rw [← h] at hr
      simp at hr
    · rw [Except.ok.injEq] at h
      rw [← h] at hr
      obtain ⟨sv, _, rfl⟩ := List.mem_map.mp hr
      simp

/-- Witness for C9: the constructor normalization at a concrete input, and a
returned document of a concrete successful query has present metadata. -/
theorem meta_default_and_deep_copy_witness :
    (mkVectorizedDocument [("x", (1 : ℝ))] "c" none).meta = [] ∧
      (⟨"a", some []⟩ : RawDocument).meta ≠ none :=
  ⟨meta_default_and_deep_copy.1 [("x", (1 : ℝ))] "c",
    meta_default_and_deep_copy.2.2.2 ℚ (fun _ _ => 0) none none "a" [⟨"a", none⟩] 1
      [⟨"a", some []⟩] (by rfl) ⟨"a", some []⟩ (by simp)⟩

/-- Claim C10: the `noPunctuation` word mapper deletes underscores (they are
in its character class) although underscore is a word character for the
tokenizer; hence a token made only of underscores maps to the empty string,
which is then inserted into the dimension set and counted in the document's
term vector like any other term. -/
theorem noPunctuation_underscore_term :
    (∀ s : String, (∀ c ∈ s.toList, c = '_') → noPunctuation s = "") ∧
    isWordChar '_' = true ∧
    (vectorizeBatch (K := ℚ) (some noPunctuation) [⟨"a __ b", none⟩]).1 = ["a", "", "b"] ∧
    ((vectorizeBatch (K := ℚ) (some noPunctuation) [⟨"a __ b", none⟩]).2.map
        (fun d => d.vector)) = [[("a", 1), ("", 1), ("b", 1)]] := by
  have ht : tokenize "a __ b" = ["a", "__", "b"] := by decide
  have hn1 : noPunctuation "a" = "a" := by decide
  have hn2 : noPunctuation "__" = "" := by decide
  have hn3 : noPunctuation "b" = "b" := by decide
  refine ⟨?_, by decide, by decide, ?_⟩
  · intro s hs
    rw [noPunctuation]
    have h : s.toList.filter (fun c => !(isPunctChar c)) = [] := by
      rw [List.filter_eq_nil_iff]
      intro c hc
      rw [hs c hc]
      decide
    rw [h]
  · simp [vectorizeBatch, vectorizeStep, vectorizeDoc, processToken, addDim, vmapSet,
      vmapLookup, mkVectorizedDocument, ht, hn1, hn2, hn3]

/-- Witness for C10: the all-underscore token of the concrete document. -/
theorem noPunctuation_underscore_term_witness :
    (∀ c ∈ ("__" : String).toList, c = '_') ∧ noPunctuation "__" = "" :=
  ⟨by decide, noPunctuation_underscore_term.1 "__" (by decide)⟩

/-- Claim C4, counterexample: `cosineSimilarity` has no guard; on zero-length
inputs it computes `0 / 0`, which is NaN in IEEE semantics, not a defined
fallback score. -/
theorem cosineSimilarity_nan_cex :
    cosineSimilarityJs (⟨[], "", []⟩ : VectorizedDocument ℝ) ⟨[], "", []⟩ = JsNumber.nan := by
  simp [cosineSimilarityJs, dotProduct, euclideanLengthJs, jsSqrt, jsMul, jsDiv,
    Real.sqrt_zero]

/-- Claim C4, amended: the division-by-zero cases are not guarded.
If `a` has Euclidean length zero then `cosineSimilarity a b` and
`cosineSimilarity b a` evaluate to NaN (the numerator is then also zero, so
the division is `0 / 0`), and the `idf` expression evaluates to positive
infinity whenever the document frequency is zero. -/
theorem division_by_zero_unguarded :
    (∀ a b : VectorizedDocument ℝ, euclideanLength a = 0 →
      cosineSimilarityJs a b = JsNumber.nan ∧ cosineSimilarityJs b a = JsNumber.nan) ∧
    (∀ n : ℕ, 0 < n → idfJs n 0 = JsNumber.posInf) := by
  constructor
  · intro a b ha
    have hsum : a.vector.foldl (fun len e => len + e.2 ^ 2) 0 =
        (a.vector.map (fun e => e.2 ^ 2)).sum := by
      rw [sumSq_foldl_eq, zero_add]
    have hnn : 0 ≤ (a.vector.map (fun e => e.2 ^ 2)).sum := by
      apply List.sum_nonneg
      intro x hx
      obtain ⟨e, _, rfl⟩ := List.mem_map.mp hx
      exact sq_nonneg _
    have hS0 : (a.vector.map (fun e => e.2 ^ 2)).sum = 0 := by
      rw [euclideanLength, hsum] at ha
      have hle := Real.sqrt_eq_zero'.mp ha
      linarith
    have hvals : ∀ e ∈ a.vector, e.2 = 0 := sum_sq_eq_zero hS0
    have hdp1 : dotProduct a b = 0 := by
      rw [dotProduct_eq_sum]
      apply List.sum_eq_zero
      intro x hx
      obtain ⟨e, he, rfl⟩ := List.mem_map.mp hx
      rcases hw : vmapLookup b.vector e.1 with _ | w
      · simp [hw]
      · simp [hw, hvals e he]
    have hdp2 : dotProduct b a = 0 := by
      rw [dotProduct_eq_sum]
      apply List.sum_eq_zero
      intro x hx
      obtain ⟨e, he, rfl⟩ := List.mem_map.mp hx
      rcases hw : vmapLookup a.vector e.1 with _ | w
      · simp [hw]
      · have hwv := vmapLookup_mem_values _ _ _ hw
        obtain ⟨f, hf, hfw⟩ := List.mem_map.mp hwv
        simp [hw, hfw ▸ hvals f hf]
    have hlenA : euclideanLengthJs a = JsNumber.fin 0 := by
      rw [euclideanLengthJs, hsum, hS0]
      simp [jsSqrt, Real.sqrt_zero]
    have hbnn : ¬ (b.vector.foldl (fun len e => len + e.2 ^ 2) 0 < 0) := by
      rw [sumSq_foldl_eq, zero_add, not_lt]
      apply List.sum_nonneg
      intro x hx
      obtain ⟨e, _, rfl⟩ := List.mem_map.mp hx
      exact sq_nonneg _
    have hlenB : euclideanLengthJs b =
        JsNumber.fin (Real.sqrt (b.vector.foldl (fun len e => len + e.2 ^ 2) 0)) := by
      rw [euclideanLengthJs, jsSqrt, if_neg hbnn]
    constructor
    · rw [cosineSimilarityJs, hdp1, hlenA, hlenB]
      simp [jsMul, jsDiv, zero_mul]
    · rw [cosineSimilarityJs, hdp2, hlenB, hlenA]
      simp [jsMul, jsDiv, mul_zero]
  · intro n hn
    have h0 : ((n : ℕ) : ℝ) ≠ 0 := (Nat.cast_pos.mpr hn).ne'
    simp [idfJs, jsDiv, jsLog, h0, Nat.cast_pos.mpr hn]

/-- Witness for the amended C4: both unguarded cases evaluated concretely. -/
theorem division_by_zero_unguarded_witness :
    euclideanLength (⟨[], "", []⟩ : VectorizedDocument ℝ) = 0 ∧ 0 < 1 ∧
      cosineSimilarityJs (⟨[], "", []⟩ : VectorizedDocument ℝ) ⟨[], "", []⟩ = JsNumber.nan ∧
      idfJs 1 0 = JsNumber.posInf :=
  ⟨by simp [euclideanLength, Real.sqrt_zero], by norm_num,
    (division_by_zero_unguarded.1 ⟨[], "", []⟩ ⟨[], "", []⟩
      (by simp [euclideanLength, Real.sqrt_zero])).1,
    division_by_zero_unguarded.2 1 (by norm_num)⟩

/-- Claim C1 (code bug): a fully evaluated valid call with case-insensitive
mapping, tf-idf and cosine similarity.  On the collection
`["a", "b"]` with query `"a"` and `k = 2`, the weighted query vector and the
weighted vector of document `"a"` coincide (cosine score `1`) while document
`"b"` scores `0`; yet `query` returns the `"b"` document first: the ranker
sorts ascending and takes `slice(0, k)`, so it returns the `k`
lowest-scored documents in ascending order, not the highest-scored ones
first as the claim (and the code's own documentation) state. -/
theorem query_returns_lowest_scored_first :
    query ℝ cosineSimilarity (some tfidf) (some caseInsensitive) "a"
        [⟨"a", none⟩, ⟨"b", none⟩] 2 =
      Except.ok [⟨"b", some []⟩, ⟨"a", some []⟩] ∧
    query ℝ cosineSimilarity (some tfidf) (some caseInsensitive) "a"
        [⟨"a", none⟩, ⟨"b", none⟩] 2 ≠
      Except.ok [⟨"a", some []⟩, ⟨"b", some []⟩] ∧
    cosineSimilarity ⟨[("a", Real.log (3 / 2)), ("b", 0)], "a", []⟩
        ⟨[("a", Real.log (3 / 2)), ("b", 0)], "a", []⟩ = 1 ∧
    cosineSimilarity ⟨[("a", Real.log (3 / 2)), ("b", 0)], "a", []⟩
        ⟨[("b", Real.log 3), ("a", 0)], "b", []⟩ = 0 := by
  have hA : vectorizeBatch (K := ℝ) (some caseInsensitive)
      ([⟨"a", none⟩, ⟨"b", none⟩] ++ [⟨"a", none⟩]) =
      (["a", "b"], [⟨[("a", 1)], "a", []⟩, ⟨[("b", 1)], "b", []⟩, ⟨[("a", 1)], "a", []⟩]) := by
    simp [vectorizeBatch, vectorizeStep, vectorizeDoc, processToken, addDim, vmapSet,
      vmapLookup, mkVectorizedDocument, (by decide : tokenize "a" = ["a"]),
      (by decide : tokenize "b" = ["b"]), (by decide : caseInsensitive "a" = "a"),
      (by decide : caseInsensitive "b" = "b")]
  have hB : tfidf [⟨[("a", (1 : ℝ))], "a", []⟩, ⟨[("b", 1)], "b", []⟩, ⟨[("a", 1)], "a", []⟩]
      ["a", "b"] =
      [⟨[("a", Real.log (3 / 2)), ("b", 0)], "a", []⟩,
       ⟨[("b", Real.log 3), ("a", 0)], "b", []⟩,
       ⟨[("a", Real.log (3 / 2)), ("b", 0)], "a", []⟩] := by
    simp [tfidf, tfidfStep, vmapSet, vmapLookup,
      (by decide : documentFrequency
        [⟨[("a", (1 : ℝ))], "a", []⟩, ⟨[("b", 1)], "b", []⟩, ⟨[("a", 1)], "a", []⟩] "a" = 2),
      (by decide : documentFrequency
        [⟨[("a", (1 : ℝ))], "a", []⟩, ⟨[("b", 1)], "b", []⟩, ⟨[("a", 1)], "a", []⟩] "b" = 1)]
  have hL : 0 < Real.log (3 / 2) := Real.log_pos (by norm_num)
  have hL3 : 0 < Real.log 3 := Real.log_pos (by norm_num)
  have hdotAA : dotProduct
      (⟨[("a", Real.log (3 / 2)), ("b", 0)], "a", []⟩ : VectorizedDocument ℝ)
      ⟨[("a", Real.log (3 / 2)), ("b", 0)], "a", []⟩ =
      Real.log (3 / 2) * Real.log (3 / 2) := by
    simp [dotProduct, vmapLookup, hL.ne']
  have hsumA : (([("a", Real.log (3 / 2)), ("b", 0)] : List (String × ℝ)).foldl
      (fun len e => len + e.2 ^ 2) 0) = Real.log (3 / 2) ^ 2 := by
    norm_num [List.foldl_cons, List.foldl_nil]
  have hlenA : euclideanLength
      (⟨[("a", Real.log (3 / 2)), ("b", 0)], "a", []⟩ : VectorizedDocument ℝ) =
      Real.log (3 / 2) := by
    rw [euclideanLength]
    rw [show (⟨[("a", Real.log (3 / 2)), ("b", 0)], "a", []⟩ :
      VectorizedDocument ℝ).vector = [("a", Real.log (3 / 2)), ("b", 0)] from rfl]
    rw [hsumA, Real.sqrt_sq hL.le]
  have hcos1 : cosineSimilarity
      (⟨[("a", Real.log (3 / 2)), ("b", 0)], "a", []⟩ : VectorizedDocument ℝ)
      ⟨[("a", Real.log (3 / 2)), ("b", 0)], "a", []⟩ = 1 := by
    rw [cosineSimilarity, hdotAA, hlenA, div_self (mul_ne_zero hL.ne' hL.ne')]
  have hdotAB : dotProduct
      (⟨[("a", Real.log (3 / 2)), ("b", 0)], "a", []⟩ : VectorizedDocument ℝ)
      ⟨[("b", Real.log 3), ("a", 0)], "b", []⟩ = 0 := by
    simp [dotProduct, vmapLookup, hL3.ne']
  have hcos2 : cosineSimilarity
      (⟨[("a", Real.log (3 / 2)), ("b", 0)], "a", []⟩ : VectorizedDocument ℝ)
      ⟨[("b", Real.log 3), ("a", 0)], "b", []⟩ = 0 := by
    rw [cosineSimilarity, hdotAB, zero_div]
  have hmain : query ℝ cosineSimilarity (some tfidf) (some caseInsensitive) "a"
      [⟨"a", none⟩, ⟨"b", none⟩] 2 =
      Except.ok [⟨"b", some []⟩, ⟨"a", some []⟩] := by
    rw [query, if_neg (by norm_num), if_neg (by norm_num [Int.floor_ofNat]),
      if_neg (by simp), if_neg (by norm_num)]
    simp only [hA, hB]
    simp only [List.getLast?_cons_cons, List.getLast?_singleton, List.dropLast_cons₂,
      List.dropLast_single, List.map_cons, List.map_nil, hcos1, hcos2]
    simp only [(by decide : (Int.floor (2 : ℚ)).toNat = 2), sortScored, insertScored,
      zero_lt_one, if_true, List.take_succ_cons, List.take_zero, List.map_cons, List.map_nil]
  exact ⟨hmain, by rw [hmain]; simp, hcos1, hcos2⟩

end VSM
